import Mathlib

/-!
Shallow embedding of the ChromiumRunner core (main.py): the argument data
model, document (de)serialization, rendering, value interpolation, and the
configuration mutation/persistence operations, together with theorems
checking the specification's claims against these definitions.

Machine-independent effects are made explicit parameters: the process
environment is a function `String → Option String` (os.environ.get), the
clock-derived timestamp is a `String` parameter, and the filesystem
existence test is a predicate `String → Bool`.
-/

/-- Embeds `ArgType` (an `Enum` with string values). -/
inductive ArgType
  | FLAG
  | STRING
  | NUMBER
  | LIST
deriving DecidableEq, Repr

/-- The `.value` of each enum member, as in `ArgType.FLAG.value == "flag"`. -/
def ArgType.toValue : ArgType → String
  | ArgType.FLAG => "flag"
  | ArgType.STRING => "string"
  | ArgType.NUMBER => "number"
  | ArgType.LIST => "list"

/-- Embeds the `ArgType(...)` value lookup used in `Arg.from_json`; a string
that is no member's value raises `ValueError`, modelled as `none`. -/
def ArgType.ofValue (s : String) : Option ArgType :=
  if s = "flag" then some ArgType.FLAG
  else if s = "string" then some ArgType.STRING
  else if s = "number" then some ArgType.NUMBER
  else if s = "list" then some ArgType.LIST
  else Option.none

/-- Embeds the dataclass `ArgListItem`. -/
structure ArgListItem where
  enabled : Bool
  value : String
deriving DecidableEq, Repr

/-- The runtime shapes of `Arg.value : str | int | list[ArgListItem] | None`. -/
inductive ArgValue
  | none
  | str (s : String)
  | num (n : Int)
  | list (items : List ArgListItem)
deriving DecidableEq, Repr

/-- Embeds the dataclass `Arg`. -/
structure Arg where
  name : String
  description : String
  type : ArgType
  value : ArgValue := ArgValue.none
  enabled : Bool := true
deriving DecidableEq, Repr

/-- The JSON value stored under an argument document's `value` key.
Plain item records `{enabled, value}` are identified with `ArgListItem`
(they carry exactly the same two fields). -/
inductive DocValue
  | null
  | str (s : String)
  | num (n : Int)
  | items (l : List ArgListItem)
deriving DecidableEq, Repr

/-- One entry of the document's `args` array, as a parsed JSON record. -/
structure ArgDoc where
  name : String
  description : String
  type : String
  value : DocValue
  enabled : Bool
deriving DecidableEq, Repr

/-- Injection of a document value into the runtime value space, as performed
implicitly by `Arg(**json)` for non-list types. -/
def DocValue.toArgValue : DocValue → ArgValue
  | DocValue.null => ArgValue.none
  | DocValue.str s => ArgValue.str s
  | DocValue.num n => ArgValue.num n
  | DocValue.items l => ArgValue.list l

/-- Projection of a runtime value back to a document value (the identity
embedding used when `to_json` stores `self.value` directly). -/
def ArgValue.toDoc : ArgValue → DocValue
  | ArgValue.none => DocValue.null
  | ArgValue.str s => DocValue.str s
  | ArgValue.num n => DocValue.num n
  | ArgValue.list l => DocValue.items l

/-- Embeds `Arg.from_json`: parses the type string (`ValueError` on an
unknown type, modelled as `none`), converts the value list to `ArgListItem`s
when the type is `LIST` (failing when the value is not an item list), and
builds the dataclass. -/
def Arg.from_json (j : ArgDoc) : Option Arg :=
  match ArgType.ofValue j.type with
  | Option.none => Option.none
  | some t =>
    if t = ArgType.LIST then
      match j.value with
      | DocValue.items l =>
        some { name := j.name, description := j.description, type := t,
               value := ArgValue.list l, enabled := j.enabled }
      | _ => Option.none
    else
      some { name := j.name, description := j.description, type := t,
             value := j.value.toArgValue, enabled := j.enabled }

/-- Embeds `Arg.to_json`. -/
def Arg.to_json (a : Arg) : ArgDoc :=
  { name := a.name
    description := a.description
    type := a.type.toValue
    value :=
      if a.type = ArgType.LIST then
        match a.value with
        | ArgValue.list l => DocValue.items l
        | v => v.toDoc
      else a.value.toDoc
    enabled := a.enabled }

/-- Embeds the `Arg.flag_name` property. -/
def Arg.flag_name (a : Arg) : String :=
  "--" ++ a.name

/-- Simplified Python `repr` of a string (single quotes, no escape
handling); only reachable through off-type value shapes that valid
arguments never take. -/
def pyReprStr (s : String) : String :=
  "'" ++ s ++ "'"

/-- Python `repr` of an `ArgListItem` dataclass instance. -/
def ArgListItem.pyRepr (i : ArgListItem) : String :=
  "ArgListItem(enabled=" ++ (cond i.enabled "True" "False") ++
    ", value=" ++ pyReprStr i.value ++ ")"

/-- Python `str()`/f-string conversion of an `Arg.value`. -/
def ArgValue.pyStr : ArgValue → String
  | ArgValue.none => "None"
  | ArgValue.str s => s
  | ArgValue.num n => toString n
  | ArgValue.list l => "[" ++ String.intercalate ", " (l.map ArgListItem.pyRepr) ++ "]"

/-- Embeds `Arg.__str__`, the CLI-token rendering. A failed `assert` is
modelled as `none`. -/
def Arg.render (a : Arg) : Option String :=
  if a.type = ArgType.STRING then
    match a.value with
    | ArgValue.none => Option.none
    | v => some (a.flag_name ++ "=\"" ++ v.pyStr ++ "\"")
  else if a.type = ArgType.FLAG then
    match a.value with
    | ArgValue.none => some a.flag_name
    | _ => Option.none
  else if a.type = ArgType.NUMBER then
    match a.value with
    | ArgValue.none => Option.none
    | v => some (a.flag_name ++ "=" ++ v.pyStr)
  else
    match a.value with
    | ArgValue.list items =>
      some (a.flag_name ++ "=\"" ++
        String.intercalate "," ((items.filter (fun i => i.enabled)).map (fun i => i.value)) ++ "\"")
    | _ => Option.none

/-- The document-valid value shape for each argument type: `Flag` carries no
value, the other types carry a value of matching runtime shape. -/
def Arg.validShape (a : Arg) : Bool :=
  match a.type, a.value with
  | ArgType.FLAG, ArgValue.none => true
  | ArgType.STRING, ArgValue.str _ => true
  | ArgType.NUMBER, ArgValue.num _ => true
  | ArgType.LIST, ArgValue.list _ => true
  | _, _ => false

/-- The code points CPython treats as whitespace in the Unicode database
(the class `str.strip()` removes): the ASCII control spaces, the separator
controls 0x1C-0x1F, NEL, NBSP, and the Unicode space and line/paragraph
separators. -/
def pyWhitespaceCodes : List Nat :=
  [0x9, 0xA, 0xB, 0xC, 0xD, 0x1C, 0x1D, 0x1E, 0x1F, 0x20, 0x85, 0xA0, 0x1680,
   0x2000, 0x2001, 0x2002, 0x2003, 0x2004, 0x2005, 0x2006, 0x2007, 0x2008,
   0x2009, 0x200A, 0x2028, 0x2029, 0x202F, 0x205F, 0x3000]

/-- Membership in CPython's whitespace class. -/
def isPySpace (c : Char) : Bool :=
  pyWhitespaceCodes.contains c.toNat

/-- The whitespace `int()` strips around its input: ASCII `Py_ISSPACE`
plus the non-ASCII Unicode whitespace. Unlike `str.strip()`, `int()` does
not strip the separator controls 0x1C-0x1F, because CPython classifies
ASCII characters with the ASCII-only table on this path. -/
def isPyIntSpace (c : Char) : Bool :=
  isPySpace c && !(0x1C ≤ c.toNat && c.toNat ≤ 0x1F)

/-- Python `str.strip()`: removes leading and trailing whitespace. -/
def pyStrip (s : String) : String :=
  String.mk (((s.data.dropWhile isPySpace).reverse.dropWhile isPySpace).reverse)

/-- First code points of the Unicode decimal-digit runs (category Nd,
`Numeric_Type=Decimal`): every such run is ten consecutive code points with
digit values 0 through 9, and these are exactly the digits `int()`
accepts. -/
def pyDigitRangeStarts : List Nat :=
  [0x30, 0x660, 0x6F0, 0x7C0, 0x966, 0x9E6, 0xA66, 0xAE6, 0xB66, 0xBE6,
   0xC66, 0xCE6, 0xD66, 0xDE6, 0xE50, 0xED0, 0xF20, 0x1040, 0x1090, 0x17E0,
   0x1810, 0x1946, 0x19D0, 0x1A80, 0x1A90, 0x1B50, 0x1BB0, 0x1C40, 0x1C50,
   0xA620, 0xA8D0, 0xA900, 0xA9D0, 0xA9F0, 0xAA50, 0xABF0, 0xFF10, 0x104A0,
   0x10D30, 0x11066, 0x110F0, 0x11136, 0x111D0, 0x112F0, 0x11450, 0x114D0,
   0x11650, 0x116C0, 0x11730, 0x118E0, 0x11950, 0x11C50, 0x11D50, 0x11DA0,
   0x16A60, 0x16AC0, 0x16B50, 0x1D7CE, 0x1D7D8, 0x1D7E2, 0x1D7EC, 0x1D7F6,
   0x1E140, 0x1E2F0, 0x1E950, 0x1FBF0]

/-- The decimal value of a character when it is a Unicode decimal digit
(`unicodedata.decimal`), `none` otherwise. -/
def pyDecimalVal (c : Char) : Option Nat :=
  (pyDigitRangeStarts.find? (fun s => s ≤ c.toNat && c.toNat ≤ s + 9)).map
    (fun s => c.toNat - s)

/-- Digit run with single underscores allowed between digits, as accepted by
Python `int()` after the first digit. -/
def parseDigitsAux : Nat → List Char → Option Nat
  | acc, [] => some acc
  | acc, '_' :: c :: rest =>
    match pyDecimalVal c with
    | some d => parseDigitsAux (acc * 10 + d) rest
    | Option.none => Option.none
  | acc, c :: rest =>
    match pyDecimalVal c with
    | some d => parseDigitsAux (acc * 10 + d) rest
    | Option.none => Option.none

/-- Nonempty digit run starting with a digit (no leading underscore). -/
def parseDigits : List Char → Option Nat
  | [] => Option.none
  | c :: rest =>
    match pyDecimalVal c with
    | some d => parseDigitsAux d rest
    | Option.none => Option.none

/-- Embeds Python `int(s)`: strips whitespace, accepts an optional ASCII
sign and a nonempty base-10 run of Unicode decimal digits with optional
single underscores between digits; `none` models the `ValueError`
raise. -/
def pyIntParse (s : String) : Option Int :=
  match ((s.data.dropWhile isPyIntSpace).reverse.dropWhile isPyIntSpace).reverse with
  | '+' :: rest => (parseDigits rest).map (fun n => (n : Int))
  | '-' :: rest => (parseDigits rest).map (fun n => -(n : Int))
  | rest => (parseDigits rest).map (fun n => (n : Int))

/-- Boolean test that a pattern list of characters is an initial segment. -/
def listStartsWith : List Char → List Char → Bool
  | [], _ => true
  | _ :: _, [] => false
  | p :: ps, c :: cs => p = c && listStartsWith ps cs

/-- Scans up to the first `'\x7d'` character, returning the characters
before it and the remainder after it; `none` when no `'\x7d'` occurs.
Mirrors how the regex class `[^\x7d]+` ends at the first closing brace. -/
def scanInner : List Char → Option (List Char × List Char)
  | [] => Option.none
  | c :: rest =>
    if c = '}' then some ([], rest)
    else
      match scanInner rest with
      | some (inner, after) => some (c :: inner, after)
      | Option.none => Option.none

/-- Match of the token body `$\x7b[^\x7d]+\x7d` at the head of the list:
returns the inner characters (nonempty, brace-free) and the remainder. -/
def tokenMatch : List Char → Option (List Char × List Char)
  | c₁ :: c₂ :: rest =>
    if c₁ = '$' ∧ c₂ = '{' then
      match scanInner rest with
      | some (inner, after) => if inner = [] then Option.none else some (inner, after)
      | Option.none => Option.none
    else Option.none
  | _ => Option.none

/-- Embeds the `repl` callback of `ValueInterpolator.interpolate_string`:
escaped tokens are returned literally without the backslash; `env:` names
are looked up (a missing variable falls through, so the placeholder is
kept); `tool:timestamp` yields the clock string; anything else keeps the
placeholder unchanged. -/
def ValueInterpolator.repl (env : String → Option String) (ts : String)
    (escaped : Bool) (inner : List Char) : List Char :=
  if escaped then '$' :: '{' :: inner ++ ['}']
  else
    let envResult : Option String :=
      if listStartsWith "env:".data inner then env (String.mk (inner.drop 4))
      else Option.none
    match envResult with
    | some v => v.data
    | Option.none =>
      if listStartsWith "tool:".data inner && inner.drop 5 = "timestamp".data then ts.data
      else '$' :: '{' :: inner ++ ['}']

/-- Left-to-right scan of `pattern.sub(repl, s)` for the pattern
`(\\)?\$\x7b([^\x7d]+)\x7d`: at each position the engine first tries to
consume a backslash (the optional group is greedy), then the token body;
replaced text is emitted and never rescanned. Fuel decreases once per
scanned position; since every step consumes at least one character,
`l.length` fuel always suffices. -/
def interpAux (env : String → Option String) (ts : String) : Nat → List Char → List Char
  | 0, l => l
  | _ + 1, [] => []
  | fuel + 1, c :: rest =>
    if c = '\\' then
      match tokenMatch rest with
      | some (inner, after) =>
        ValueInterpolator.repl env ts true inner ++ interpAux env ts fuel after
      | Option.none => c :: interpAux env ts fuel rest
    else
      match tokenMatch (c :: rest) with
      | some (inner, after) =>
        ValueInterpolator.repl env ts false inner ++ interpAux env ts fuel after
      | Option.none => c :: interpAux env ts fuel rest

/-- Embeds `ValueInterpolator.interpolate_string`, with the environment and
the timestamp string as explicit parameters. -/
def ValueInterpolator.interpolate_string (env : String → Option String) (ts : String)
    (s : String) : String :=
  String.mk (interpAux env ts s.data.length s.data)

/-- Embeds the `Config` object state: source path, browser path and the
ordered argument list. -/
structure Config where
  path : String
  browser_path : String
  args : List Arg
deriving DecidableEq, Repr

/-- Embeds `Config.find_arg`: first argument with the given name. -/
def Config.find_arg (c : Config) (arg_name : String) : Option Arg :=
  c.args.find? (fun arg => arg.name = arg_name)

/-- Replaces the first element satisfying the predicate by its image under
the update; models Python mutating the object found by a linear scan. -/
def updateFirst {α : Type} (p : α → Bool) (f : α → α) : List α → List α
  | [] => []
  | x :: xs => if p x then f x :: xs else x :: updateFirst p f xs

/-- Splitter loop for Python `str.split(sep)` with a one-character
separator: the accumulator holds the current piece reversed. -/
def pySplitAux (sep : Char) : List Char → List Char → List String
  | acc, [] => [String.mk acc.reverse]
  | acc, c :: rest =>
    if c = sep then String.mk acc.reverse :: pySplitAux sep [] rest
    else pySplitAux sep (c :: acc) rest

/-- Python `s.split(sep)` for a one-character separator: keeps empty
pieces, and the empty string yields one empty piece. -/
def pySplit (s : String) (sep : Char) : List String :=
  pySplitAux sep [] s.data

/-- The type-directed in-place update of `Config.set_value` applied to the
argument it found: `STRING` stores the raw text, `NUMBER` stores the parsed
integer (`0` when `int()` raises `ValueError`), `LIST` splits on commas,
strips each piece and rebuilds the item list with every item enabled; no
branch matches `FLAG`, which is left untouched. -/
def Arg.applySetValue (arg : Arg) (value : String) : Arg :=
  if arg.type = ArgType.STRING then { arg with value := ArgValue.str value }
  else if arg.type = ArgType.NUMBER then
    { arg with value := ArgValue.num ((pyIntParse value).getD 0) }
  else if arg.type = ArgType.LIST then
    { arg with value := ArgValue.list ((pySplit value ',').map
        (fun item => { enabled := true, value := pyStrip item })) }
  else arg

/-- Embeds `Config.set_value`: looks the argument up by name (the failing
`assert arg is not None` is modelled as `none`) and applies the
type-directed update to it. -/
def Config.set_value (c : Config) (arg_name value : String) : Option Config :=
  match c.find_arg arg_name with
  | Option.none => Option.none
  | some _ =>
    some { c with args := updateFirst (fun a => a.name = arg_name)
                            (fun a => a.applySetValue value) c.args }

/-- The loop body of `Config.run_browser_command` over the argument list:
disabled arguments are skipped, each remaining one is rendered by
`Arg.__str__` (an `assert` failure aborts the whole call) and passed
through the interpolator. -/
def Config.runCommandTokens (env : String → Option String) (ts : String) :
    List Arg → Option (List String)
  | [] => some []
  | a :: rest =>
    if a.enabled = false then Config.runCommandTokens env ts rest
    else
      match a.render with
      | some s =>
        (Config.runCommandTokens env ts rest).map
          (fun l => ValueInterpolator.interpolate_string env ts s :: l)
      | Option.none => Option.none

/-- Embeds `Config.run_browser_command`: the browser path (not
interpolated) followed by the interpolated tokens of the enabled
arguments, in declaration order. -/
def Config.run_browser_command (env : String → Option String) (ts : String)
    (c : Config) : Option (List String) :=
  (Config.runCommandTokens env ts c.args).map (fun l => c.browser_path :: l)

/-- The document written by `Config.save`: the browser path and the
serialized argument records. -/
structure ConfigDoc where
  browser_path : String
  args : List ArgDoc
deriving DecidableEq, Repr

/-- Embeds the payload of `Config.save` (the `json` dict it writes out). -/
def Config.save_doc (c : Config) : ConfigDoc :=
  { browser_path := c.browser_path, args := c.args.map Arg.to_json }

/-- A parsed on-disk configuration document as consumed by
`Config.__init__`: the `browser_path` key may be absent (`json.get` with
default `""`). -/
structure RawConfigDoc where
  browser_path : Option String
  args : List ArgDoc
deriving DecidableEq, Repr

/-- Load failures of `Config.__init__` after JSON parsing: the
`FileNotFoundError` for a missing browser executable, and the
`ValueError`/`TypeError` from `Arg.from_json` on a bad argument record. -/
inductive LoadError
  | notFound
  | validationError
deriving DecidableEq, Repr

/-- Embeds `Config.__init__` on an already-parsed document, with the
filesystem existence test as a predicate: checks that the browser path
exists before parsing any argument record. -/
def Config.load (fs : String → Bool) (path : String) (doc : RawConfigDoc) :
    Except LoadError Config :=
  if fs (doc.browser_path.getD "") = false then Except.error LoadError.notFound
  else
    match doc.args.mapM Arg.from_json with
    | some args =>
      Except.ok { path := path, browser_path := doc.browser_path.getD "", args := args }
    | Option.none => Except.error LoadError.validationError

/-- The state the `_input` event branch of `App.run_event_loop` acts on:
the in-memory configuration and the on-disk document. -/
structure AppState where
  config : Config
  disk : ConfigDoc
deriving DecidableEq, Repr

/-- Embeds the `_input` branch of `App.run_event_loop`:
`self.config.set_value(arg_name, values[event])` followed by
`self.config.save()`; a failing `set_value` assertion propagates, so the
state is not saved. -/
def App.inputEventStep (st : AppState) (arg_name raw : String) : Option AppState :=
  match st.config.set_value arg_name raw with
  | some c => some { config := c, disk := c.save_doc }
  | Option.none => Option.none

/-- Sample arguments and configuration used to exercise the theorems on
concrete inputs. -/
def demoNumberArg : Arg :=
  { name := "a", description := "a number", type := ArgType.NUMBER,
    value := ArgValue.num 1, enabled := true }

def demoFlagArg : Arg :=
  { name := "b", description := "a flag", type := ArgType.FLAG,
    value := ArgValue.none, enabled := false }

def demoListArg : Arg :=
  { name := "l", description := "a list", type := ArgType.LIST,
    value := ArgValue.list [{ enabled := false, value := "x" }, { enabled := true, value := "y" }],
    enabled := true }

def demoConfig : Config :=
  { path := "demo.config.json", browser_path := "/bin/x",
    args := [demoNumberArg, demoFlagArg, demoListArg] }

theorem strData_append (a b : String) : (a ++ b).data = a.data ++ b.data := rfl

theorem strMk_data (s : String) : String.mk s.data = s := rfl

theorem applySetValue_name (arg : Arg) (v : String) :
    (arg.applySetValue v).name = arg.name := by
  unfold Arg.applySetValue
  split_ifs <;> rfl

theorem updateFirstFind {α : Type} (p : α → Bool) (f : α → α) :
    ∀ (l : List α) (a : α), l.find? p = some a → p (f a) = true →
      (updateFirst p f l).find? p = some (f a) := by
  intro l
  induction l with
  | nil => intro a h _; simp [List.find?] at h
  | cons x xs ih =>
    intro a h hp
    by_cases hx : p x = true
    · rw [List.find?_cons_of_pos _ hx] at h
      cases h
      simp [updateFirst, hx, List.find?_cons_of_pos _ hp]
    · rw [List.find?_cons_of_neg _ (by simpa using hx)] at h
      simp only [updateFirst, hx, if_false, Bool.false_eq_true, ite_false]
      rw [List.find?_cons_of_neg _ (by simpa using hx)]
      exact ih a h hp

theorem updateFirstFix {α : Type} (p : α → Bool) (f : α → α) :
    ∀ (l : List α) (a : α), l.find? p = some a → f a = a → updateFirst p f l = l := by
  intro l
  induction l with
  | nil => intro a h _; simp [List.find?] at h
  | cons x xs ih =>
    intro a h hfix
    by_cases hx : p x = true
    · rw [List.find?_cons_of_pos _ hx] at h
      cases h
      simp [updateFirst, hx, hfix]
    · rw [List.find?_cons_of_neg _ (by simpa using hx)] at h
      simp only [updateFirst, hx, Bool.false_eq_true, ite_false]
      rw [ih a h hfix]

theorem setValueFound (c : Config) (arg_name raw : String) (a : Arg)
    (hf : c.find_arg arg_name = some a) :
    ∃ c', c.set_value arg_name raw = some c' ∧
      c'.find_arg arg_name = some (a.applySetValue raw) := by
  unfold Config.find_arg at hf
  have hpa := List.find?_some hf
  have hpf : (fun arg : Arg => decide (arg.name = arg_name)) (a.applySetValue raw) = true := by
    simpa [applySetValue_name] using hpa
  refine ⟨{ c with args := updateFirst (fun arg : Arg => decide (arg.name = arg_name)) (fun x => x.applySetValue raw) c.args }, ?_, ?_⟩
  · unfold Config.set_value Config.find_arg
    rw [hf]
  · unfold Config.find_arg
    exact updateFirstFind _ _ c.args a hf hpf

theorem runCommandTokens_eq (env : String → Option String) (ts : String) :
    ∀ (l : List Arg),
      (∀ a ∈ l, a.enabled = true → (Arg.render a).isSome = true) →
      Config.runCommandTokens env ts l =
        some ((l.filter (fun a => a.enabled)).map
          (fun a => ValueInterpolator.interpolate_string env ts ((Arg.render a).getD ""))) := by
  intro l
  induction l with
  | nil => intro _; rfl
  | cons a rest ih =>
    intro h
    have hrest := ih (fun x hx hex => h x (List.mem_cons_of_mem _ hx) hex)
    by_cases ha : a.enabled = true
    · obtain ⟨s, hs⟩ := Option.isSome_iff_exists.mp (h a (List.mem_cons_self _ _) ha)
      simp [Config.runCommandTokens, ha, hs, hrest, List.filter_cons]
    · have hfalse : a.enabled = false := by revert ha; cases a.enabled <;> simp
      simp [Config.runCommandTokens, hfalse, hrest, List.filter_cons]

/-- C1 (as stated) is refuted: the claim requires every element of the
command vector, including the browser path, to have been passed through the
interpolator, but `run_browser_command` emits `str(self.browser_path)`
verbatim. A loadable configuration whose browser path is the escaped token
backslash-dollar-brace `a:b` brace keeps that raw path as its first vector
element, while interpolating it would have stripped the backslash. -/
theorem C1_counterexample :
    Config.load (fun p => p = "\\$\x7ba:b\x7d") "c.config.json"
        { browser_path := some "\\$\x7ba:b\x7d", args := [] } =
      Except.ok { path := "c.config.json", browser_path := "\\$\x7ba:b\x7d", args := [] } ∧
    Config.run_browser_command (fun _ => Option.none) "TS"
        { path := "c.config.json", browser_path := "\\$\x7ba:b\x7d", args := [] } =
      some ["\\$\x7ba:b\x7d"] ∧
    ValueInterpolator.interpolate_string (fun _ => Option.none) "TS" "\\$\x7ba:b\x7d" =
      "$\x7ba:b\x7d" ∧
    ("\\$\x7ba:b\x7d" : String) ≠ "$\x7ba:b\x7d" :=
  ⟨rfl, rfl, rfl, by decide⟩

/-- C1 amended: for every configuration all of whose enabled arguments
render successfully, `run_browser_command` returns the browser path
verbatim (not interpolated) followed by the interpolated rendering of each
enabled argument, in declaration order, disabled arguments excluded. -/
theorem C1_amended (env : String → Option String) (ts : String) (c : Config)
    (h : ∀ a ∈ c.args, a.enabled = true → (Arg.render a).isSome = true) :
    Config.run_browser_command env ts c =
      some (c.browser_path :: (c.args.filter (fun a => a.enabled)).map
        (fun a => ValueInterpolator.interpolate_string env ts ((Arg.render a).getD ""))) := by
  unfold Config.run_browser_command
  rw [runCommandTokens_eq env ts c.args h]
  rfl

/-- Witness for the amended C1 on the sample configuration: the number
argument is enabled and kept, the disabled flag is dropped, the list keeps
only its enabled item. -/
theorem C1_amended_witness :
    Config.run_browser_command (fun _ => Option.none) "TS" demoConfig =
      some ["/bin/x", "--a=1", "--l=\"y\""] := by
  have h := C1_amended (fun _ => Option.none) "TS" demoConfig (by decide)
  exact h.trans (by decide)

/-- C2: for every argument whose value shape matches its type,
`from_json (to_json a)` succeeds and reproduces `a` exactly (name,
description, type, value and enabled all included). -/
theorem C2_round_trip (a : Arg) (h : a.validShape = true) :
    Arg.from_json a.to_json = some a := by
  obtain ⟨name, description, type, value, enabled⟩ := a
  cases type <;> cases value <;>
    first
      | rfl
      | simp [Arg.validShape] at h

/-- Witness for C2 on a concrete list argument with mixed item states. -/
theorem C2_round_trip_witness :
    demoListArg.validShape = true ∧ Arg.from_json demoListArg.to_json = some demoListArg :=
  ⟨by decide, C2_round_trip demoListArg (by decide)⟩

/-- C3: rendering emits exactly the bare flag for `Flag`, the quoted value
for `String`, the unquoted integer for `Number`, and for `List` the quoted
comma-join of the enabled items in stored order (the empty string when no
item is enabled). -/
theorem C3_render_rules :
    (∀ a : Arg, a.type = ArgType.FLAG → a.value = ArgValue.none →
      a.render = some ("--" ++ a.name)) ∧
    (∀ (a : Arg) (s : String), a.type = ArgType.STRING → a.value = ArgValue.str s →
      a.render = some ("--" ++ a.name ++ "=\"" ++ s ++ "\"")) ∧
    (∀ (a : Arg) (n : Int), a.type = ArgType.NUMBER → a.value = ArgValue.num n →
      a.render = some ("--" ++ a.name ++ "=" ++ toString n)) ∧
    (∀ (a : Arg) (items : List ArgListItem), a.type = ArgType.LIST →
      a.value = ArgValue.list items →
      a.render = some ("--" ++ a.name ++ "=\"" ++
        String.intercalate "," ((items.filter (fun i => i.enabled)).map (fun i => i.value)) ++
        "\"")) := by
  refine ⟨?_, ?_, ?_, ?_⟩
  · intro a h1 h2
    obtain ⟨name, description, type, value, enabled⟩ := a
    subst h1; subst h2; rfl
  · intro a s h1 h2
    obtain ⟨name, description, type, value, enabled⟩ := a
    subst h1; subst h2; rfl
  · intro a n h1 h2
    obtain ⟨name, description, type, value, enabled⟩ := a
    subst h1; subst h2; rfl
  · intro a items h1 h2
    obtain ⟨name, description, type, value, enabled⟩ := a
    subst h1; subst h2; rfl

/-- Witness for C3: one concrete rendering per argument type, including a
list whose only item is disabled, which renders with empty quotes. -/
theorem C3_render_rules_witness :
    Arg.render { name := "f", description := "", type := ArgType.FLAG } = some "--f" ∧
    Arg.render { name := "s", description := "", type := ArgType.STRING, value := ArgValue.str "v" } = some "--s=\"v\"" ∧
    Arg.render { name := "n", description := "", type := ArgType.NUMBER, value := ArgValue.num 7 } = some "--n=7" ∧
    Arg.render { name := "l", description := "", type := ArgType.LIST, value := ArgValue.list [{ enabled := false, value := "x" }] } = some "--l=\"\"" :=
  ⟨C3_render_rules.1 _ rfl rfl,
   C3_render_rules.2.1 _ "v" rfl rfl,
   C3_render_rules.2.2.1 _ 7 rfl rfl,
   C3_render_rules.2.2.2 _ [{ enabled := false, value := "x" }] rfl rfl⟩

/-- C4: on a list-typed argument, `set_value` replaces the whole item
sequence by the comma-split, whitespace-stripped pieces of the raw string,
every new item enabled, regardless of the previous items and their enabled
states. -/
theorem C4_list_set_value (c : Config) (arg_name raw : String) (a : Arg)
    (hf : c.find_arg arg_name = some a) (ht : a.type = ArgType.LIST) :
    ∃ c', c.set_value arg_name raw = some c' ∧
      c'.find_arg arg_name = some
        { a with
          value := ArgValue.list ((pySplit raw ',').map
            (fun piece => { enabled := true, value := pyStrip piece })) } := by
  obtain ⟨c', h1, h2⟩ := setValueFound c arg_name raw a hf
  refine ⟨c', h1, ?_⟩
  rw [h2]
  congr 1
  unfold Arg.applySetValue
  rw [if_neg (by rw [ht]; decide), if_neg (by rw [ht]; decide), if_pos ht]

/-- Witness for C4: the specification's own example input, discarding the
previous item list and its enabled states; and an input with a no-break
space, which `str.strip()` removes just like ASCII whitespace. -/
theorem C4_list_set_value_witness :
    (∃ c', demoConfig.set_value "l" "a, b ,c" = some c' ∧
      c'.find_arg "l" = some
        { name := "l", description := "a list", type := ArgType.LIST,
          value := ArgValue.list [{ enabled := true, value := "a" }, { enabled := true, value := "b" }, { enabled := true, value := "c" }],
          enabled := true }) ∧
    (∃ c', demoConfig.set_value "l" "a\u00A0,b" = some c' ∧
      c'.find_arg "l" = some
        { name := "l", description := "a list", type := ArgType.LIST,
          value := ArgValue.list [{ enabled := true, value := "a" }, { enabled := true, value := "b" }],
          enabled := true }) := by
  constructor
  · obtain ⟨c', h1, h2⟩ := C4_list_set_value demoConfig "l" "a, b ,c" demoListArg (by decide) rfl
    exact ⟨c', h1, h2.trans (by decide)⟩
  · obtain ⟨c', h1, h2⟩ := C4_list_set_value demoConfig "l" "a\u00A0,b" demoListArg (by decide) rfl
    exact ⟨c', h1, h2.trans (by decide)⟩

/-- C5: on a number-typed argument, `set_value` never fails: it stores the
parsed integer when the raw string parses, and `0` when `int()` would
raise. -/
theorem C5_number_set_value (c : Config) (arg_name raw : String) (a : Arg)
    (hf : c.find_arg arg_name = some a) (ht : a.type = ArgType.NUMBER) :
    ∃ c', c.set_value arg_name raw = some c' ∧
      c'.find_arg arg_name = some { a with value := ArgValue.num ((pyIntParse raw).getD 0) } := by
  obtain ⟨c', h1, h2⟩ := setValueFound c arg_name raw a hf
  refine ⟨c', h1, ?_⟩
  rw [h2]
  congr 1
  unfold Arg.applySetValue
  rw [if_neg (by rw [ht]; decide), if_pos ht]

/-- Witness for C5: the non-parsing input "abc" degrades to 0, and three
parsing inputs are stored as their integer value: plain "42" with ASCII
whitespace around it, "42" preceded by a no-break space, and the
Arabic-Indic digit spelling of 42 (all accepted by Python `int`). -/
theorem C5_number_set_value_witness :
    (∃ c', demoConfig.set_value "a" "abc" = some c' ∧
      c'.find_arg "a" = some
        { name := "a", description := "a number", type := ArgType.NUMBER,
          value := ArgValue.num 0, enabled := true }) ∧
    (∃ c', demoConfig.set_value "a" " 42 " = some c' ∧
      c'.find_arg "a" = some
        { name := "a", description := "a number", type := ArgType.NUMBER,
          value := ArgValue.num 42, enabled := true }) ∧
    (∃ c', demoConfig.set_value "a" "\u00A042" = some c' ∧
      c'.find_arg "a" = some
        { name := "a", description := "a number", type := ArgType.NUMBER,
          value := ArgValue.num 42, enabled := true }) ∧
    (∃ c', demoConfig.set_value "a" "٤٢" = some c' ∧
      c'.find_arg "a" = some
        { name := "a", description := "a number", type := ArgType.NUMBER,
          value := ArgValue.num 42, enabled := true }) := by
  refine ⟨?_, ?_, ?_, ?_⟩
  · obtain ⟨c', h1, h2⟩ := C5_number_set_value demoConfig "a" "abc" demoNumberArg (by decide) rfl
    exact ⟨c', h1, h2.trans (by decide)⟩
  · obtain ⟨c', h1, h2⟩ := C5_number_set_value demoConfig "a" " 42 " demoNumberArg (by decide) rfl
    exact ⟨c', h1, h2.trans (by decide)⟩
  · obtain ⟨c', h1, h2⟩ := C5_number_set_value demoConfig "a" "\u00A042" demoNumberArg (by decide) rfl
    exact ⟨c', h1, h2.trans (by decide)⟩
  · obtain ⟨c', h1, h2⟩ := C5_number_set_value demoConfig "a" "٤٢" demoNumberArg (by decide) rfl
    exact ⟨c', h1, h2.trans (by decide)⟩

/-- C8: the input-event path fails (assertion, mapped to `NotFound` in the
specification's taxonomy) exactly on an unknown argument name; on a known
name it performs the type-directed update through `set_value` and then
saves, so the on-disk document equals the serialization of the updated
in-memory configuration. -/
theorem C8_set_value_persists (c : Config) (d : ConfigDoc) (arg_name raw : String) :
    (c.find_arg arg_name = Option.none →
      App.inputEventStep { config := c, disk := d } arg_name raw = Option.none) ∧
    (∀ a, c.find_arg arg_name = some a →
      ∃ c', c.set_value arg_name raw = some c' ∧
        App.inputEventStep { config := c, disk := d } arg_name raw =
          some { config := c', disk := c'.save_doc }) := by
  constructor
  · intro h
    unfold App.inputEventStep Config.set_value
    rw [show ({ config := c, disk := d } : AppState).config.find_arg arg_name = Option.none from h]
  · intro a h
    unfold App.inputEventStep Config.set_value
    rw [show ({ config := c, disk := d } : AppState).config.find_arg arg_name = some a from h]
    exact ⟨_, rfl, rfl⟩

/-- Witness for C8: an unknown name fails; a known name updates and the
resulting disk document is the image of the new in-memory state. -/
theorem C8_set_value_persists_witness :
    (App.inputEventStep { config := demoConfig, disk := demoConfig.save_doc } "zz" "1" =
      Option.none) ∧
    (∃ c', demoConfig.set_value "a" "5" = some c' ∧
      App.inputEventStep { config := demoConfig, disk := demoConfig.save_doc } "a" "5" =
        some { config := c', disk := c'.save_doc }) :=
  ⟨(C8_set_value_persists demoConfig demoConfig.save_doc "zz" "1").1 (by decide),
   (C8_set_value_persists demoConfig demoConfig.save_doc "a" "5").2 demoNumberArg (by decide)⟩

/-- C9: loading fails with the browser-not-found error exactly when the
browser path recorded in the document (defaulting to the empty string when
the key is absent) does not exist on disk; in every such case the result is
an error, so no configuration is produced. -/
theorem C9_load_not_found (fs : String → Bool) (path : String) (doc : RawConfigDoc) :
    Config.load fs path doc = Except.error LoadError.notFound ↔
      fs (doc.browser_path.getD "") = false := by
  unfold Config.load
  by_cases h : fs (doc.browser_path.getD "") = false
  · rw [if_pos h]
    simp [h]
  · rw [if_neg h]
    constructor
    · intro hcon
      exfalso
      cases hm : doc.args.mapM Arg.from_json with
      | none =>
        rw [hm] at hcon
        exact LoadError.noConfusion (Except.error.inj hcon)
      | some args =>
        rw [hm] at hcon
        exact Except.noConfusion hcon
    · intro hcon
      exact absurd hcon h

/-- C10: `set_value` on a flag-typed argument found in the configuration
completes without error and returns the configuration entirely unchanged:
no branch of the type dispatch matches `FLAG`, so the argument keeps its
absent value, its enabled state and every other field. -/
theorem C10_flag_set_value_noop (c : Config) (arg_name raw : String) (a : Arg)
    (hf : c.find_arg arg_name = some a) (ht : a.type = ArgType.FLAG) :
    c.set_value arg_name raw = some c := by
  unfold Config.find_arg at hf
  have hfix : a.applySetValue raw = a := by
    unfold Arg.applySetValue
    rw [if_neg (by rw [ht]; decide), if_neg (by rw [ht]; decide),
        if_neg (by rw [ht]; decide)]
  unfold Config.set_value Config.find_arg
  rw [hf, updateFirstFix _ _ c.args a hf hfix]

/-- Witness for C10: setting any text on the disabled flag argument leaves
the sample configuration untouched. -/
theorem C10_flag_set_value_noop_witness :
    demoConfig.set_value "b" "whatever" = some demoConfig :=
  C10_flag_set_value_noop demoConfig "b" "whatever" demoFlagArg (by decide) rfl

theorem scanInner_append (inner rest : List Char) (h : ∀ c ∈ inner, c ≠ '}') :
    scanInner (inner ++ '}' :: rest) = some (inner, rest) := by
  induction inner with
  | nil => simp [scanInner]
  | cons c cs ih =>
    have hc : c ≠ '}' := h c (List.mem_cons_self _ _)
    have ih' := ih (fun x hx => h x (List.mem_cons_of_mem _ hx))
    simp [scanInner, hc, ih']

theorem scanInner_len :
    ∀ (l inner after : List Char), scanInner l = some (inner, after) →
      after.length < l.length := by
  intro l
  induction l with
  | nil => intro inner after h; simp [scanInner] at h
  | cons c cs ih =>
    intro inner after h
    by_cases hc : c = '}'
    · rw [show scanInner (c :: cs) = some ([], cs) by simp [scanInner, hc]] at h
      cases h
      simp
    · rw [show scanInner (c :: cs) =
          match scanInner cs with
          | some (inner, after) => some (c :: inner, after)
          | Option.none => Option.none
        by simp [scanInner, hc]] at h
      cases hs : scanInner cs with
      | none => rw [hs] at h; cases h
      | some p =>
        obtain ⟨p1, p2⟩ := p
        rw [hs] at h
        cases h
        simpa using Nat.lt_succ_of_lt (ih _ _ hs)

theorem tokenMatch_of_shape (inner rest : List Char) (h1 : inner ≠ [])
    (h2 : ∀ c ∈ inner, c ≠ '}') :
    tokenMatch ('$' :: '{' :: (inner ++ '}' :: rest)) = some (inner, rest) := by
  simp [tokenMatch, scanInner_append inner rest h2, h1]

theorem tokenMatch_len :
    ∀ (l inner after : List Char), tokenMatch l = some (inner, after) →
      after.length < l.length := by
  intro l inner after h
  match l with
  | [] => cases h
  | [c] => cases h
  | c₁ :: c₂ :: rest =>
    rw [show tokenMatch (c₁ :: c₂ :: rest) =
        if c₁ = '$' ∧ c₂ = '{' then
          match scanInner rest with
          | some (inner, after) => if inner = [] then Option.none else some (inner, after)
          | Option.none => Option.none
        else Option.none
      from rfl] at h
    by_cases hd : c₁ = '$' ∧ c₂ = '{'
    · rw [if_pos hd] at h
      cases hs : scanInner rest with
      | none => rw [hs] at h; cases h
      | some p =>
        obtain ⟨p1, p2⟩ := p
        rw [hs] at h
        have h' : (if p1 = [] then Option.none else some (p1, p2)) = some (inner, after) := h
        by_cases hp : p1 = []
        · rw [if_pos hp] at h'; cases h'
        · rw [if_neg hp] at h'
          cases h'
          have := scanInner_len rest _ _ hs
          simp
          omega
    · rw [if_neg hd] at h; cases h

theorem tokenMatch_not_dollar (c : Char) (l : List Char) (h : c ≠ '$') :
    tokenMatch (c :: l) = Option.none := by
  cases l with
  | nil => rfl
  | cons d ds => simp [tokenMatch, h]

theorem interpAux_congr (env : String → Option String) (ts : String) :
    ∀ (f₁ f₂ : Nat) (l : List Char), l.length ≤ f₁ → l.length ≤ f₂ →
      interpAux env ts f₁ l = interpAux env ts f₂ l := by
  intro f₁
  induction f₁ with
  | zero =>
    intro f₂ l h1 _
    have : l = [] := List.eq_nil_of_length_eq_zero (Nat.le_zero.mp h1)
    subst this
    cases f₂ <;> rfl
  | succ f ih =>
    intro f₂ l h1 h2
    cases l with
    | nil => cases f₂ <;> rfl
    | cons c rest =>
      obtain ⟨g, rfl⟩ : ∃ g, f₂ = g + 1 := ⟨f₂ - 1, by simp at h2; omega⟩
      have hrest : rest.length ≤ f := by simp at h1; omega
      have hrest' : rest.length ≤ g := by simp at h2; omega
      simp only [interpAux]
      by_cases hc : c = '\\'
      · rw [if_pos hc, if_pos hc]
        cases ht : tokenMatch rest with
        | none =>
          show c :: interpAux env ts f rest = c :: interpAux env ts g rest
          rw [ih g rest hrest hrest']
        | some p =>
          obtain ⟨inner, after⟩ := p
          have hlen := tokenMatch_len rest inner after ht
          show ValueInterpolator.repl env ts true inner ++ interpAux env ts f after =
            ValueInterpolator.repl env ts true inner ++ interpAux env ts g after
          rw [ih g after (by omega) (by omega)]
      · rw [if_neg hc, if_neg hc]
        cases ht : tokenMatch (c :: rest) with
        | none =>
          show c :: interpAux env ts f rest = c :: interpAux env ts g rest
          rw [ih g rest hrest hrest']
        | some p =>
          obtain ⟨inner, after⟩ := p
          have hlen := tokenMatch_len (c :: rest) inner after ht
          show ValueInterpolator.repl env ts false inner ++ interpAux env ts f after =
            ValueInterpolator.repl env ts false inner ++ interpAux env ts g after
          rw [ih g after (by simp at hlen; omega) (by simp at hlen; omega)]

theorem interpAux_escaped (env : String → Option String) (ts : String)
    (inner rest : List Char) (fuel : Nat)
    (h1 : inner ≠ []) (h2 : ∀ c ∈ inner, c ≠ '}')
    (hf : inner.length + rest.length + 4 ≤ fuel) :
    interpAux env ts fuel ('\\' :: '$' :: '{' :: (inner ++ '}' :: rest)) =
      ('$' :: '{' :: inner ++ ['}']) ++ interpAux env ts rest.length rest := by
  obtain ⟨f, rfl⟩ : ∃ f, fuel = f + 1 := ⟨fuel - 1, by omega⟩
  simp only [interpAux, if_pos rfl]
  rw [tokenMatch_of_shape inner rest h1 h2]
  show ValueInterpolator.repl env ts true inner ++ interpAux env ts f rest = _
  rw [interpAux_congr env ts f rest.length rest (by omega) (Nat.le_refl _)]
  simp [ValueInterpolator.repl]

theorem repl_unknown (env : String → Option String) (ts : String) (inner : List Char)
    (he : listStartsWith "env:".data inner = false)
    (htool : (listStartsWith "tool:".data inner && inner.drop 5 = "timestamp".data) = false) :
    ValueInterpolator.repl env ts false inner = '$' :: '{' :: inner ++ ['}'] := by
  simp only [ValueInterpolator.repl, Bool.false_eq_true, if_false, he, htool, ite_false]

theorem repl_env_missing (env : String → Option String) (ts : String) (name : String)
    (hmiss : env name = Option.none) :
    ValueInterpolator.repl env ts false ('e' :: 'n' :: 'v' :: ':' :: name.data) =
      '$' :: '{' :: ('e' :: 'n' :: 'v' :: ':' :: name.data) ++ ['}'] := by
  have hstart : listStartsWith "env:".data ('e' :: 'n' :: 'v' :: ':' :: name.data) = true := rfl
  have htool : listStartsWith "tool:".data ('e' :: 'n' :: 'v' :: ':' :: name.data) = false := rfl
  have hdrop : env (String.mk (('e' :: 'n' :: 'v' :: ':' :: name.data).drop 4)) = Option.none := by
    rw [show ('e' :: 'n' :: 'v' :: ':' :: name.data).drop 4 = name.data from rfl, strMk_data]
    exact hmiss
  simp only [ValueInterpolator.repl, Bool.false_eq_true, if_false, hstart, if_true, hdrop,
    htool, Bool.false_and, ite_false]

theorem interpAux_token (env : String → Option String) (ts : String)
    (inner rest : List Char) (fuel : Nat)
    (h1 : inner ≠ []) (h2 : ∀ c ∈ inner, c ≠ '}')
    (hf : inner.length + rest.length + 3 ≤ fuel) :
    interpAux env ts fuel ('$' :: '{' :: (inner ++ '}' :: rest)) =
      ValueInterpolator.repl env ts false inner ++ interpAux env ts rest.length rest := by
  obtain ⟨f, rfl⟩ : ∃ f, fuel = f + 1 := ⟨fuel - 1, by omega⟩
  simp only [interpAux]
  rw [if_neg (by decide)]
  rw [tokenMatch_of_shape inner rest h1 h2]
  show ValueInterpolator.repl env ts false inner ++ interpAux env ts f rest = _
  rw [interpAux_congr env ts f rest.length rest (by omega) (Nat.le_refl _)]

/-- C6: an escaped token (backslash before the dollar-brace form) is kept
in the output as the literal token with the backslash removed, whatever the
environment would resolve it to; a token whose content names no known
provider (neither an environment lookup nor the timestamp tool) is left
verbatim; and the malformed empty token is left verbatim. In every case the
rest of the string is still interpolated. -/
theorem C6_escape_and_unknown (env : String → Option String) (ts : String)
    (inner suffix : String)
    (h1 : inner.data ≠ []) (h2 : ∀ c ∈ inner.data, c ≠ '}') :
    (ValueInterpolator.interpolate_string env ts ("\\$\x7b" ++ inner ++ "\x7d" ++ suffix) =
      "$\x7b" ++ inner ++ "\x7d" ++ ValueInterpolator.interpolate_string env ts suffix) ∧
    (listStartsWith "env:".data inner.data = false →
     (listStartsWith "tool:".data inner.data && inner.data.drop 5 = "timestamp".data) = false →
     ValueInterpolator.interpolate_string env ts ("$\x7b" ++ inner ++ "\x7d" ++ suffix) =
      "$\x7b" ++ inner ++ "\x7d" ++ ValueInterpolator.interpolate_string env ts suffix) ∧
    ValueInterpolator.interpolate_string env ts "$\x7b\x7d" = "$\x7b\x7d" := by
  refine ⟨?_, ?_, rfl⟩
  · have hdata : ("\\$\x7b" ++ inner ++ "\x7d" ++ suffix).data =
        '\\' :: '$' :: '{' :: (inner.data ++ '}' :: suffix.data) := by
      show ((['\\', '$', '{'] ++ inner.data) ++ ['}']) ++ suffix.data = _
      simp
    unfold ValueInterpolator.interpolate_string
    rw [hdata]
    rw [interpAux_escaped env ts inner.data suffix.data _ h1 h2 (by simp; omega)]
    apply String.ext
    show ('$' :: '{' :: inner.data ++ ['}']) ++ interpAux env ts suffix.data.length suffix.data =
      ((['$', '{'] ++ inner.data) ++ ['}']) ++ interpAux env ts suffix.data.length suffix.data
    simp
  · intro he htool
    have hdata : ("$\x7b" ++ inner ++ "\x7d" ++ suffix).data =
        '$' :: '{' :: (inner.data ++ '}' :: suffix.data) := by
      show ((['$', '{'] ++ inner.data) ++ ['}']) ++ suffix.data = _
      simp
    unfold ValueInterpolator.interpolate_string
    rw [hdata]
    rw [interpAux_token env ts inner.data suffix.data _ h1 h2 (by simp; omega)]
    rw [repl_unknown env ts inner.data he htool]
    apply String.ext
    show ('$' :: '{' :: inner.data ++ ['}']) ++ interpAux env ts suffix.data.length suffix.data =
      ((['$', '{'] ++ inner.data) ++ ['}']) ++ interpAux env ts suffix.data.length suffix.data
    simp

/-- Witness for C6: an escaped token is unescaped but not resolved even
though the environment could resolve it, and an unknown provider token is
left verbatim while the text around it survives. -/
theorem C6_escape_and_unknown_witness :
    ValueInterpolator.interpolate_string (fun _ => some "VAL") "TS" "\\$\x7benv:FOO\x7d" =
      "$\x7benv:FOO\x7d" ∧
    ValueInterpolator.interpolate_string (fun _ => some "VAL") "TS" "$\x7bwho:q\x7dz" =
      "$\x7bwho:q\x7dz" := by
  constructor
  · have h := C6_escape_and_unknown (fun _ => some "VAL") "TS" "env:FOO" "" (by decide) (by decide)
    exact h.1.trans (by decide)
  · have h := C6_escape_and_unknown (fun _ => some "VAL") "TS" "who:q" "z" (by decide) (by decide)
    exact (h.2.1 (by decide) (by decide)).trans (by decide)

/-- C7: interpolation is a total function, and an environment token whose
variable is absent is left in the output as the untouched placeholder (the
code's choice between the two behaviors the specification allows) while
the remainder of the string is still interpolated normally. -/
theorem C7_missing_env (env : String → Option String) (ts : String)
    (name suffix : String)
    (hmiss : env name = Option.none) (hname : ∀ c ∈ name.data, c ≠ '}') :
    ValueInterpolator.interpolate_string env ts ("$\x7benv:" ++ name ++ "\x7d" ++ suffix) =
      "$\x7benv:" ++ name ++ "\x7d" ++ ValueInterpolator.interpolate_string env ts suffix := by
  have hdata : ("$\x7benv:" ++ name ++ "\x7d" ++ suffix).data =
      '$' :: '{' :: (('e' :: 'n' :: 'v' :: ':' :: name.data) ++ '}' :: suffix.data) := by
    show ((['$', '{', 'e', 'n', 'v', ':'] ++ name.data) ++ ['}']) ++ suffix.data = _
    simp
  have h1 : ('e' :: 'n' :: 'v' :: ':' :: name.data) ≠ [] := by simp
  have h2 : ∀ c ∈ ('e' :: 'n' :: 'v' :: ':' :: name.data), c ≠ '}' := by
    intro c hc
    rcases List.mem_cons.mp hc with h | hc
    · subst h; decide
    rcases List.mem_cons.mp hc with h | hc
    · subst h; decide
    rcases List.mem_cons.mp hc with h | hc
    · subst h; decide
    rcases List.mem_cons.mp hc with h | hc
    · subst h; decide
    exact hname c hc
  unfold ValueInterpolator.interpolate_string
  rw [hdata]
  rw [interpAux_token env ts _ suffix.data _ h1 h2 (by simp; omega)]
  rw [repl_env_missing env ts name hmiss]
  apply String.ext
  show ('$' :: '{' :: ('e' :: 'n' :: 'v' :: ':' :: name.data) ++ ['}']) ++
      interpAux env ts suffix.data.length suffix.data =
    ((['$', '{', 'e', 'n', 'v', ':'] ++ name.data) ++ ['}']) ++
      interpAux env ts suffix.data.length suffix.data
  simp

/-- Witness for C7: with an empty environment the missing-variable token
survives as the placeholder and the suffix is still processed. -/
theorem C7_missing_env_witness :
    ValueInterpolator.interpolate_string (fun _ => Option.none) "TS" "$\x7benv:FOO\x7d!" =
      "$\x7benv:FOO\x7d!" := by
  have h := C7_missing_env (fun _ => Option.none) "TS" "FOO" "!" rfl (by decide)
  exact h.trans (by decide)
